import Mathlib

/-!
Shallow embedding of the quiz-pool generator and turn scheduler of the
Sinonimoen PWA (src/App.tsx), together with theorems checking the
natural-language specification against the code.

Randomness (`Math.random()`) is modelled by explicit oracle functions:
each call site receives a natural number (or a stream of them) and the
code's `Math.floor(Math.random() * n)` becomes `r % n`, which ranges over
exactly the indices the source draws from.
-/

namespace Sinonimoen

/-- `WordData` from types.ts as used by App.tsx: `{ id, hitza, sinonimoak }`. -/
structure WordData where
  id : Nat
  hitza : String
  sinonimoak : List String
deriving DecidableEq, Repr

/-- `Question` from types.ts as used by App.tsx: `{ wordData, correctAnswer, options }`. -/
structure Question where
  wordData : WordData
  correctAnswer : String
  options : List String
deriving DecidableEq, Repr

/-- `QUESTIONS_PER_PLAYER = 10` (App.tsx line 7). -/
def QUESTIONS_PER_PLAYER : Nat := 10

/-- JavaScript `String.prototype.toLowerCase` on the character sequence. -/
def jsToLower (s : String) : String :=
  ⟨s.data.map Char.toLower⟩

/-- JavaScript `String.prototype.trim`: strip whitespace from both ends. -/
def jsTrim (s : String) : String :=
  ⟨((s.data.dropWhile Char.isWhitespace).reverse.dropWhile Char.isWhitespace).reverse⟩

/-- JavaScript `String.prototype.endsWith` on the character sequence. -/
def strEndsWith (s suffix : String) : Bool :=
  decide (suffix.data.length ≤ s.data.length) &&
    s.data.drop (s.data.length - suffix.data.length) == suffix.data

/-- `getWordType` (App.tsx lines 18-24): lowercase, trim, then suffix rules. -/
def getWordType (word : String) : String :=
  let normalized := jsTrim (jsToLower word)
  if strEndsWith normalized "tu" || strEndsWith normalized "du" ||
     strEndsWith normalized "ten" || strEndsWith normalized "tzen" then "verb"
  else if strEndsWith normalized "ak" || strEndsWith normalized "ek" then "plural"
  else if strEndsWith normalized "era" || strEndsWith normalized "ura" ||
          strEndsWith normalized "tasun" then "abstract"
  else "other"

/-- The spec's classifier, §4.1, written as a first-match rule table:
rules are tried in the spec's priority order and the first whose suffix
matches decides the category; default is `"other"`. -/
def specRules : List (String × String) :=
  [("tu", "verb"), ("du", "verb"), ("ten", "verb"), ("tzen", "verb"),
   ("ak", "plural"), ("ek", "plural"),
   ("era", "abstract"), ("ura", "abstract"), ("tasun", "abstract")]

/-- Spec §4.1 classifier: normalize, then first matching rule wins. -/
def classifySpec (word : String) : String :=
  let normalized := jsTrim (jsToLower word)
  match specRules.find? (fun r => strEndsWith normalized r.1) with
  | some r => r.2
  | none => "other"

/-- One iteration-indexed swap of the Fisher-Yates loop body:
`[newArr[i], newArr[j]] = [newArr[j], newArr[i]]` guarded by bounds
(in the source both indices are always in bounds). -/
def listSwap {α : Type} (l : List α) (i j : Nat) : List α :=
  match l[i]?, l[j]? with
  | some x, some y => (l.set i y).set j x
  | _, _ => l

/-- The Fisher-Yates loop of `shuffleArray` (App.tsx lines 11-14), counting
`i` down from `n-1` to `1`; `rand i` is the raw random draw at step `i`,
reduced mod `i+1` exactly as `Math.floor(Math.random() * (i + 1))` yields a
uniform index in `[0, i]`. -/
def fisherYates {α : Type} (rand : Nat → Nat) (l : List α) : Nat → List α
  | 0 => l
  | i + 1 => fisherYates rand (listSwap l (i + 1) (rand (i + 1) % (i + 2))) i

/-- `shuffleArray` (App.tsx lines 9-16). -/
def shuffleArray {α : Type} (rand : Nat → Nat) (l : List α) : List α :=
  fisherYates rand l (l.length - 1)

theorem cons_set_perm {α : Type} (a : α) :
    ∀ (t : List α) (k : Nat) (y : α), t[k]? = some y →
      (y :: t.set k a).Perm (a :: t) := by
  intro t
  induction t with
  | nil => intro k y h; simp at h
  | cons b t ih =>
    intro k y h
    cases k with
    | zero =>
      simp at h
      subst h
      simpa using List.Perm.swap a b t
    | succ k =>
      simp at h
      have hperm := ih k y h
      have s1 : (y :: b :: t.set k a).Perm (b :: y :: t.set k a) :=
        List.Perm.swap b y (t.set k a)
      have s3 : (b :: y :: t.set k a).Perm (b :: a :: t) := hperm.cons b
      have s4 : (b :: a :: t).Perm (a :: b :: t) := List.Perm.swap a b t
      simpa using s1.trans (s3.trans s4)

theorem listSwap_perm {α : Type} :
    ∀ (l : List α) (i j : Nat), (listSwap l i j).Perm l := by
  intro l
  induction l with
  | nil => intro i j; simp [listSwap]
  | cons a t ih =>
    intro i j
    cases i with
    | zero =>
      cases j with
      | zero => simp [listSwap]
      | succ k =>
        cases h : t[k]? with
        | none => simp [listSwap, h]
        | some y =>
          simpa [listSwap, h] using cons_set_perm a t k y h
    | succ m =>
      cases j with
      | zero =>
        cases h : t[m]? with
        | none => simp [listSwap, h]
        | some x =>
          simpa [listSwap, h] using cons_set_perm a t m x h
      | succ k =>
        cases h1 : t[m]? with
        | none => simp [listSwap, h1]
        | some x =>
          cases h2 : t[k]? with
          | none => simp [listSwap, h1, h2]
          | some y =>
            have hmain := ih m k
            simp [listSwap, h1, h2] at hmain ⊢
            exact hmain

theorem fisherYates_perm {α : Type} (rand : Nat → Nat) :
    ∀ (n : Nat) (l : List α), (fisherYates rand l n).Perm l := by
  intro n
  induction n with
  | zero => intro l; simp [fisherYates]
  | succ i ih =>
    intro l
    exact (ih _).trans (listSwap_perm l (i + 1) (rand (i + 1) % (i + 2)))

theorem shuffleArray_perm {α : Type} (rand : Nat → Nat) (l : List α) :
    (shuffleArray rand l).Perm l :=
  fisherYates_perm rand (l.length - 1) l

theorem shuffleArray_length {α : Type} (rand : Nat → Nat) (l : List α) :
    (shuffleArray rand l).length = l.length :=
  (shuffleArray_perm rand l).length_eq

/-- `Array.from(new Set(xs))` (App.tsx line 180): deduplication keeping the
first occurrence of each string, with an accumulator of already-seen items. -/
def jsDedup {α : Type} [DecidableEq α] : List α → List α → List α
  | [], _ => []
  | a :: l, seen => if a ∈ seen then jsDedup l seen else a :: jsDedup l (a :: seen)

theorem mem_jsDedup {α : Type} [DecidableEq α] (x : α) :
    ∀ (l seen : List α), x ∈ jsDedup l seen ↔ x ∈ l ∧ x ∉ seen := by
  intro l
  induction l with
  | nil => intro seen; simp [jsDedup]
  | cons a l ih =>
    intro seen
    by_cases ha : a ∈ seen
    · simp only [jsDedup, if_pos ha, ih, List.mem_cons]
      constructor
      · rintro ⟨hx, hns⟩
        exact ⟨Or.inr hx, hns⟩
      · rintro ⟨rfl | hx, hns⟩
        · exact absurd ha hns
        · exact ⟨hx, hns⟩
    · simp only [jsDedup, if_neg ha, List.mem_cons, ih]
      constructor
      · rintro (rfl | ⟨hx, hns⟩)
        · exact ⟨Or.inl rfl, ha⟩
        · exact ⟨Or.inr hx, fun hc => hns (Or.inr hc)⟩
      · rintro ⟨hx | hx, hns⟩
        · exact Or.inl hx
        · by_cases hxa : x = a
          · exact Or.inl hxa
          · exact Or.inr ⟨hx, fun hc => hc.elim hxa hns⟩

theorem nodup_jsDedup {α : Type} [DecidableEq α] :
    ∀ (l seen : List α), (jsDedup l seen).Nodup := by
  intro l
  induction l with
  | nil => intro seen; simp [jsDedup]
  | cons a l ih =>
    intro seen
    by_cases ha : a ∈ seen
    · simpa [jsDedup, if_pos ha] using ih seen
    · simp only [jsDedup, if_neg ha]
      refine List.nodup_cons.mpr ⟨fun hc => ?_, ih (a :: seen)⟩
      exact ((mem_jsDedup a l (a :: seen)).mp hc).2 (List.mem_cons_self a seen)

/-- The replication loop of `generatePoolFromData` (App.tsx lines 167-170):
`while (gameData.length < needed) gameData = [...gameData, ...poolSource]`.
The loop has no fuel in the source; here `fuel` bounds the number of
iterations so the definition is total, and the termination theorems show
`fuel = needed` always suffices when `poolSource` is non-empty, while no
amount of fuel reaches the exit condition when `poolSource` is empty. -/
def growPool (poolSource : List WordData) (needed : Nat) :
    List WordData → Nat → List WordData
  | acc, 0 => acc
  | acc, fuel + 1 =>
    if acc.length < needed then growPool poolSource needed (acc ++ poolSource) fuel
    else acc

/-- `allWordsInPool` (App.tsx line 172):
`poolSource.flatMap((d) => [d.hitza, ...d.sinonimoak])`. -/
def allWordsIn (poolSource : List WordData) : List String :=
  poolSource.flatMap (fun d => d.hitza :: d.sinonimoak)

/-- `distractorsPool` (App.tsx line 177):
`allWordsInPool.filter((w) => w !== data.hitza && !data.sinonimoak.includes(w))`. -/
def distractorsPoolFor (allWords : List String) (d : WordData) : List String :=
  allWords.filter (fun w => w != d.hitza && !(d.sinonimoak.contains w))

/-- `sameTypeDistractors` (App.tsx line 178):
`distractorsPool.filter((w) => getWordType(w) === targetType)` where
`targetType = getWordType(data.hitza)`. -/
def sameTypeFor (allWords : List String) (d : WordData) : List String :=
  (distractorsPoolFor allWords d).filter (fun w => getWordType w == getWordType d.hitza)

/-- `finalDistractorsSource` (App.tsx line 179):
`sameTypeDistractors.length >= 10 ? sameTypeDistractors : distractorsPool`. -/
def finalSourceFor (allWords : List String) (d : WordData) : List String :=
  if 10 ≤ (sameTypeFor allWords d).length then sameTypeFor allWords d
  else distractorsPoolFor allWords d

/-- `shuffledDistractors` (App.tsx line 180):
`shuffleArray(Array.from(new Set(finalDistractorsSource))).slice(0, 3)`. -/
def selectDistractors (allWords : List String) (d : WordData) (rd : Nat → Nat) :
    List String :=
  (shuffleArray rd (jsDedup (finalSourceFor allWords d) [])).take 3

/-- The question built for one drawn entry (App.tsx lines 174-182): `rc` is
the raw random draw for the correct answer, `rd` and `ro` the random streams
for the two shuffles. -/
def mkQuestion (allWords : List String) (d : WordData) (rc : Nat)
    (rd ro : Nat → Nat) : Question :=
  let correctAnswer := d.sinonimoak.getD (rc % d.sinonimoak.length) ""
  let shuffledDistractors := selectDistractors allWords d rd
  let options := shuffleArray ro (correctAnswer :: shuffledDistractors)
  { wordData := d, correctAnswer := correctAnswer, options := options }

/-- `gameData.map((data) => ...)` (App.tsx lines 174-183), with the random
oracles indexed by the position of the entry in `gameData`. -/
def buildQuestions (allWords : List String) (randC : Nat → Nat)
    (randD randO : Nat → Nat → Nat) : Nat → List WordData → List Question
  | _, [] => []
  | k, d :: rest =>
    mkQuestion allWords d (randC k) (randD k) (randO k) ::
      buildQuestions allWords randC randD randO (k + 1) rest

/-- `generatePoolFromData` (App.tsx lines 166-184). -/
def generatePoolFromData (needed : Nat) (poolSource : List WordData)
    (rand0 : Nat → Nat) (randC : Nat → Nat) (randD randO : Nat → Nat → Nat) :
    List Question :=
  let gameData := (shuffleArray rand0 (growPool poolSource needed poolSource needed)).take needed
  buildQuestions (allWordsIn poolSource) randC randD randO 0 gameData

theorem growPool_length_ge (poolSource : List WordData) (needed : Nat)
    (hps : poolSource ≠ []) :
    ∀ (fuel : Nat) (acc : List WordData), needed ≤ acc.length + fuel →
      needed ≤ (growPool poolSource needed acc fuel).length := by
  intro fuel
  induction fuel with
  | zero => intro acc h; simpa [growPool] using h
  | succ n ih =>
    intro acc h
    by_cases hlt : acc.length < needed
    · simp only [growPool, if_pos hlt]
      apply ih
      have hp : 1 ≤ poolSource.length := List.length_pos.mpr hps
      simp only [List.length_append]
      omega
    · simp only [growPool, if_neg hlt]
      omega

theorem growPool_mem (poolSource : List WordData) (needed : Nat) :
    ∀ (fuel : Nat) (acc : List WordData) (x : WordData),
      x ∈ growPool poolSource needed acc fuel → x ∈ acc ∨ x ∈ poolSource := by
  intro fuel
  induction fuel with
  | zero => intro acc x h; exact Or.inl h
  | succ n ih =>
    intro acc x h
    by_cases hlt : acc.length < needed
    · simp only [growPool, if_pos hlt] at h
      rcases ih _ x h with hm | hm
      · rcases List.mem_append.mp hm with hm | hm
        · exact Or.inl hm
        · exact Or.inr hm
      · exact Or.inr hm
    · simp only [growPool, if_neg hlt] at h
      exact Or.inl h

theorem growPool_nil (needed : Nat) :
    ∀ (fuel : Nat), growPool [] needed [] fuel = [] := by
  intro fuel
  induction fuel with
  | zero => rfl
  | succ n ih =>
    by_cases hlt : (0 : Nat) < needed
    · simpa [growPool, hlt] using ih
    · simp [growPool, hlt]

theorem length_buildQuestions (allWords : List String) (randC : Nat → Nat)
    (randD randO : Nat → Nat → Nat) :
    ∀ (k : Nat) (l : List WordData),
      (buildQuestions allWords randC randD randO k l).length = l.length := by
  intro k l
  induction l generalizing k with
  | nil => rfl
  | cons d rest ih => simp [buildQuestions, ih]

theorem mem_buildQuestions (allWords : List String) (randC : Nat → Nat)
    (randD randO : Nat → Nat → Nat) :
    ∀ (k : Nat) (l : List WordData) (q : Question),
      q ∈ buildQuestions allWords randC randD randO k l →
      ∃ d ∈ l, ∃ rc rd ro, q = mkQuestion allWords d rc rd ro := by
  intro k l
  induction l generalizing k with
  | nil => intro q h; simp [buildQuestions] at h
  | cons d rest ih =>
    intro q h
    rcases List.mem_cons.mp h with h | h
    · exact ⟨d, List.mem_cons_self d rest, randC k, randD k, randO k, h⟩
    · obtain ⟨d', hd', rc, rd, ro, hq⟩ := ih (k + 1) q h
      exact ⟨d', List.mem_cons_of_mem d hd', rc, rd, ro, hq⟩

theorem mem_distractorsPoolFor (allWords : List String) (d : WordData) (x : String) :
    x ∈ distractorsPoolFor allWords d ↔
      x ∈ allWords ∧ x ≠ d.hitza ∧ x ∉ d.sinonimoak := by
  simp [distractorsPoolFor, List.mem_filter, and_assoc]

theorem finalSourceFor_subset (allWords : List String) (d : WordData) :
    ∀ x ∈ finalSourceFor allWords d, x ∈ distractorsPoolFor allWords d := by
  intro x hx
  unfold finalSourceFor at hx
  split at hx
  · exact (List.mem_filter.mp hx).1
  · exact hx

theorem selectDistractors_nodup (allWords : List String) (d : WordData)
    (rd : Nat → Nat) : (selectDistractors allWords d rd).Nodup := by
  unfold selectDistractors
  refine (List.take_sublist 3 _).nodup ?_
  exact ((shuffleArray_perm rd _).nodup_iff).mpr (nodup_jsDedup _ [])

theorem selectDistractors_length (allWords : List String) (d : WordData)
    (rd : Nat → Nat) :
    (selectDistractors allWords d rd).length =
      min 3 (jsDedup (finalSourceFor allWords d) []).length := by
  unfold selectDistractors
  simp [List.length_take, shuffleArray_length]

theorem mem_selectDistractors (allWords : List String) (d : WordData)
    (rd : Nat → Nat) :
    ∀ x ∈ selectDistractors allWords d rd, x ∈ distractorsPoolFor allWords d := by
  intro x hx
  unfold selectDistractors at hx
  have hx2 : x ∈ shuffleArray rd (jsDedup (finalSourceFor allWords d) []) :=
    List.take_subset 3 _ hx
  have hx3 : x ∈ jsDedup (finalSourceFor allWords d) [] :=
    ((shuffleArray_perm rd _).mem_iff).mp hx2
  have hx4 : x ∈ finalSourceFor allWords d :=
    ((mem_jsDedup x _ []).mp hx3).1
  exact finalSourceFor_subset allWords d x hx4

/-- The per-question well-formedness facts (App.tsx lines 174-182): the built
question keeps its source entry, draws the correct answer from that entry's
own synonyms, puts it among the options, and the options are duplicate-free
of length `1 + min 3 (number of distinct distractor candidates)`; every
option other than the correct answer comes from the excluded-filtered
distractor universe. -/
theorem mkQuestion_spec (allWords : List String) (d : WordData) (rc : Nat)
    (rd ro : Nat → Nat) (hd : d.sinonimoak ≠ []) :
    (mkQuestion allWords d rc rd ro).wordData = d ∧
    (mkQuestion allWords d rc rd ro).correctAnswer ∈ d.sinonimoak ∧
    (mkQuestion allWords d rc rd ro).correctAnswer ∈ (mkQuestion allWords d rc rd ro).options ∧
    (mkQuestion allWords d rc rd ro).options.Nodup ∧
    (mkQuestion allWords d rc rd ro).options.length
      = 1 + min 3 (jsDedup (finalSourceFor allWords d) []).length ∧
    (∀ x ∈ (mkQuestion allWords d rc rd ro).options,
      x ≠ (mkQuestion allWords d rc rd ro).correctAnswer →
      x ∈ distractorsPoolFor allWords d) := by
  set q : Question := mkQuestion allWords d rc rd ro with hqset
  have hlen : 0 < d.sinonimoak.length := List.length_pos.mpr hd
  have hidx : rc % d.sinonimoak.length < d.sinonimoak.length := Nat.mod_lt rc hlen
  have hcmem : q.correctAnswer ∈ d.sinonimoak := by
    show d.sinonimoak.getD (rc % d.sinonimoak.length) "" ∈ d.sinonimoak
    rw [List.getD_eq_getElem _ _ hidx]
    exact List.getElem_mem hidx
  have hoptperm : q.options.Perm
      (q.correctAnswer :: selectDistractors allWords d rd) :=
    shuffleArray_perm ro _
  have hcnot : q.correctAnswer ∉ selectDistractors allWords d rd := by
    intro hc
    have := (mem_distractorsPoolFor allWords d q.correctAnswer).mp
      (mem_selectDistractors allWords d rd _ hc)
    exact this.2.2 hcmem
  refine ⟨rfl, hcmem, ?_, ?_, ?_, ?_⟩
  · exact hoptperm.mem_iff.mpr (List.mem_cons_self _ _)
  · exact hoptperm.nodup_iff.mpr
      (List.nodup_cons.mpr ⟨hcnot, selectDistractors_nodup allWords d rd⟩)
  · rw [hoptperm.length_eq]
    simp [selectDistractors_length, Nat.add_comm]
  · intro x hx hne
    have hx2 : x ∈ q.correctAnswer :: selectDistractors allWords d rd :=
      hoptperm.mem_iff.mp hx
    rcases List.mem_cons.mp hx2 with h | h
    · exact absurd h hne
    · exact mem_selectDistractors allWords d rd x h

theorem generatePool_length (needed : Nat) (poolSource : List WordData)
    (rand0 : Nat → Nat) (randC : Nat → Nat) (randD randO : Nat → Nat → Nat)
    (hps : poolSource ≠ []) :
    (generatePoolFromData needed poolSource rand0 randC randD randO).length
      = needed := by
  unfold generatePoolFromData
  rw [length_buildQuestions]
  rw [List.length_take, shuffleArray_length]
  have hge : needed ≤ (growPool poolSource needed poolSource needed).length :=
    growPool_length_ge poolSource needed hps needed poolSource (by omega)
  omega

theorem generatePool_mem (needed : Nat) (poolSource : List WordData)
    (rand0 : Nat → Nat) (randC : Nat → Nat) (randD randO : Nat → Nat → Nat) :
    ∀ q ∈ generatePoolFromData needed poolSource rand0 randC randD randO,
      q.wordData ∈ poolSource ∧
      ∃ rc rd ro, q = mkQuestion (allWordsIn poolSource) q.wordData rc rd ro := by
  intro q hq
  unfold generatePoolFromData at hq
  obtain ⟨d, hd, rc, rd, ro, hquest⟩ :=
    mem_buildQuestions (allWordsIn poolSource) randC randD randO 0 _ q hq
  have hwd : q.wordData = d := by rw [hquest]; rfl
  have hd2 : d ∈ shuffleArray rand0 (growPool poolSource needed poolSource needed) :=
    List.take_subset needed _ hd
  have hd3 : d ∈ growPool poolSource needed poolSource needed :=
    ((shuffleArray_perm rand0 _).mem_iff).mp hd2
  have hd4 : d ∈ poolSource := by
    rcases growPool_mem poolSource needed needed poolSource d hd3 with h | h
    · exact h
    · exact h
  exact ⟨hwd ▸ hd4, rc, rd, ro, hwd ▸ hquest⟩

/-- `GameStatus` from types.ts, with the values App.tsx switches on. -/
inductive GameStatus
  | SETUP | AUTH | CONTRIBUTE | INTERMISSION | PLAYING | SUMMARY | REVIEW
deriving DecidableEq, Repr

/-- `Player` from types.ts as used by App.tsx: `{ id, name, score, time }`.
Times are rationals: the source's floating-point seconds arithmetic here is
exact division by 1000 and addition of integers. -/
structure Player where
  id : Nat
  name : String
  score : Nat
  time : ℚ
deriving DecidableEq, Repr

/-- The game-relevant React state of `App` (App.tsx lines 27-40). -/
structure GameState where
  status : GameStatus
  players : List Player
  questionPool : List Question
  currentPlayerIndex : Nat
  currentQuestionIndex : Nat
  selectedAnswer : Option String
  isAnswered : Bool
  currentTurnPenalties : Nat
  turnStartTime : ℚ
deriving DecidableEq, Repr

/-- JavaScript's `list.map((x, idx) => f(idx, x))` with explicit start index. -/
def mapWithIdx {α : Type} (f : Nat → α → α) : Nat → List α → List α
  | _, [] => []
  | i, a :: l => f i a :: mapWithIdx f (i + 1) l

/-- `players.map((p, idx) => idx === target ? f(p) : p)` (App.tsx 243, 280-282). -/
def updatePlayers (players : List Player) (target : Nat) (f : Player → Player) :
    List Player :=
  mapWithIdx (fun idx pl => if idx = target then f pl else pl) 0 players

theorem getElem?_mapWithIdx {α : Type} (f : Nat → α → α) :
    ∀ (l : List α) (k i : Nat), (mapWithIdx f k l)[i]? = (l[i]?).map (f (k + i)) := by
  intro l
  induction l with
  | nil => intro k i; simp [mapWithIdx]
  | cons a l ih =>
    intro k i
    cases i with
    | zero => simp [mapWithIdx]
    | succ i =>
      have heq : k + 1 + i = k + (i + 1) := by omega
      simp only [mapWithIdx, List.getElem?_cons_succ, ih (k + 1) i, heq]

theorem length_mapWithIdx {α : Type} (f : Nat → α → α) :
    ∀ (l : List α) (k : Nat), (mapWithIdx f k l).length = l.length := by
  intro l
  induction l with
  | nil => intro k; rfl
  | cons a l ih => intro k; simp [mapWithIdx, ih]

theorem getElem?_updatePlayers (players : List Player) (target : Nat)
    (f : Player → Player) (i : Nat) :
    (updatePlayers players target f)[i]? =
      if i = target then (players[i]?).map f else players[i]? := by
  unfold updatePlayers
  rw [getElem?_mapWithIdx]
  by_cases h : i = target
  · simp [h]
  · simp only [Nat.zero_add, if_neg h]
    cases players[i]? <;> simp

theorem length_updatePlayers (players : List Player) (target : Nat)
    (f : Player → Player) :
    (updatePlayers players target f).length = players.length :=
  length_mapWithIdx _ players 0

/-- The flat pool index `currentPlayerIndex * QUESTIONS_PER_PLAYER +
currentQuestionIndex` (App.tsx lines 236 and 657). -/
def currentPoolIndex (s : GameState) : Nat :=
  s.currentPlayerIndex * QUESTIONS_PER_PLAYER + s.currentQuestionIndex

/-- The guarded question lookup `poolIdx >= 0 && poolIdx <
questionPool.length ? questionPool[poolIdx] : null` (App.tsx 237 and 658);
`poolIdx >= 0` is always true for naturals. -/
def currentQuestionOf (s : GameState) : Option Question :=
  if currentPoolIndex s < s.questionPool.length then
    s.questionPool[currentPoolIndex s]?
  else none

/-- `handleAnswer` (App.tsx lines 234-247). -/
def handleAnswer (s : GameState) (answer : String) : GameState :=
  if s.isAnswered then s
  else
    match currentQuestionOf s with
    | none => s
    | some q =>
      let s1 := { s with selectedAnswer := some answer, isAnswered := true }
      if answer = q.correctAnswer then
        { s1 with players := updatePlayers s1.players s1.currentPlayerIndex
                    (fun p => { p with score := p.score + 1 }) }
      else
        { s1 with currentTurnPenalties := s1.currentTurnPenalties + 10 }

/-- `startPlayerTurn` (App.tsx lines 221-228); `now` stands for `Date.now()`
in milliseconds. -/
def startPlayerTurn (now : ℚ) (s : GameState) : GameState :=
  { s with turnStartTime := now, currentTurnPenalties := 0,
           status := GameStatus.PLAYING, currentQuestionIndex := 0,
           isAnswered := false, selectedAnswer := none }

/-- `finishPlayerTurn` (App.tsx lines 275-294), without the fire-and-forget
history write. -/
def finishPlayerTurn (now : ℚ) (s : GameState) : GameState :=
  let realSeconds := (now - s.turnStartTime) / 1000
  let totalSecondsWithPenalty := realSeconds + (s.currentTurnPenalties : ℚ)
  let updatedPlayers := updatePlayers s.players s.currentPlayerIndex
      (fun p => { p with time := totalSecondsWithPenalty })
  if s.currentPlayerIndex < s.players.length - 1 then
    { s with players := updatedPlayers,
             currentPlayerIndex := s.currentPlayerIndex + 1,
             status := GameStatus.INTERMISSION }
  else
    { s with players := updatedPlayers, status := GameStatus.SUMMARY }

/-- `nextQuestion` (App.tsx lines 249-257); `now` is the `Date.now()` value
`finishPlayerTurn` reads when it is invoked. -/
def nextQuestion (now : ℚ) (s : GameState) : GameState :=
  if s.currentQuestionIndex < QUESTIONS_PER_PLAYER - 1 then
    { s with currentQuestionIndex := s.currentQuestionIndex + 1,
             isAnswered := false, selectedAnswer := none }
  else finishPlayerTurn now s

/-- One answered question followed by advancing: the user picks `a.1` and
clicks "next" at time `a.2`. -/
def answerStep (s : GameState) (a : String × ℚ) : GameState :=
  nextQuestion a.2 (handleAnswer s a.1)

/-- A player's whole turn: the ten answer/advance events in order. -/
def runTurn (s : GameState) (answers : List (String × ℚ)) : GameState :=
  answers.foldl answerStep s

/-- The pool-construction slice of `startNewGame` (App.tsx lines 186-205):
`totalNeeded = (isSolo ? 1 : players.length) * QUESTIONS_PER_PLAYER`, and the
empty-vocabulary guard aborts (returns `none`) before the generator runs. -/
def startNewGamePool (isSolo : Bool) (players : List Player)
    (poolSource : List WordData) (rand0 : Nat → Nat) (randC : Nat → Nat)
    (randD randO : Nat → Nat → Nat) : Option (List Question) :=
  let totalNeeded := (if isSolo then 1 else players.length) * QUESTIONS_PER_PLAYER
  if poolSource.isEmpty then none
  else some (generatePoolFromData totalNeeded poolSource rand0 randC randD randO)

/-- How many of the given answers are correct, when answering from flat pool
position `p * QUESTIONS_PER_PLAYER + k` onwards. -/
def numCorrect (pool : List Question) (p : Nat) : Nat → List (String × ℚ) → Nat
  | _, [] => 0
  | k, (a, _) :: rest =>
    (match pool[p * QUESTIONS_PER_PLAYER + k]? with
     | some q => if a = q.correctAnswer then 1 else 0
     | none => 0) + numCorrect pool p (k + 1) rest

/-- The time at which the last advance of the turn happens. -/
def lastTime (answers : List (String × ℚ)) : ℚ :=
  match answers.getLast? with
  | some a => a.2
  | none => 0

theorem handleAnswer_answered (s : GameState) (answer : String)
    (h : s.isAnswered = true) : handleAnswer s answer = s := by
  simp [handleAnswer, h]

theorem handleAnswer_unanswered (s : GameState) (answer : String) (q : Question)
    (hans : s.isAnswered = false) (hq : currentQuestionOf s = some q) :
    handleAnswer s answer =
      if answer = q.correctAnswer then
        { s with selectedAnswer := some answer, isAnswered := true,
                 players := updatePlayers s.players s.currentPlayerIndex
                   (fun p => { p with score := p.score + 1 }) }
      else
        { s with selectedAnswer := some answer, isAnswered := true,
                 currentTurnPenalties := s.currentTurnPenalties + 10 } := by
  unfold handleAnswer
  simp only [hans, Bool.false_eq_true, if_false, hq]

theorem finishPlayerTurn_players (now : ℚ) (s : GameState) :
    (finishPlayerTurn now s).players =
      updatePlayers s.players s.currentPlayerIndex
        (fun p => { p with time :=
          (now - s.turnStartTime) / 1000 + (s.currentTurnPenalties : ℚ) }) := by
  unfold finishPlayerTurn
  split <;> rfl

theorem answerStep_mid (s : GameState) (a : String × ℚ) (q : Question)
    (hans : s.isAnswered = false)
    (hq : currentQuestionOf s = some q)
    (hk : s.currentQuestionIndex < QUESTIONS_PER_PLAYER - 1) :
    answerStep s a =
      { s with
        currentQuestionIndex := s.currentQuestionIndex + 1,
        isAnswered := false, selectedAnswer := none,
        players := if a.1 = q.correctAnswer then
            updatePlayers s.players s.currentPlayerIndex
              (fun p => { p with score := p.score + 1 })
          else s.players,
        currentTurnPenalties := if a.1 = q.correctAnswer then
            s.currentTurnPenalties
          else s.currentTurnPenalties + 10 } := by
  unfold answerStep
  rw [handleAnswer_unanswered s a.1 q hans hq]
  by_cases hc : a.1 = q.correctAnswer
  · rw [if_pos hc, if_pos hc, if_pos hc]
    unfold nextQuestion
    rw [if_pos (by simpa using hk)]
  · rw [if_neg hc, if_neg hc, if_neg hc]
    unfold nextQuestion
    rw [if_pos (by simpa using hk)]

theorem numCorrect_le (pool : List Question) (p : Nat) :
    ∀ (steps : List (String × ℚ)) (k : Nat),
      numCorrect pool p k steps ≤ steps.length := by
  intro steps
  induction steps with
  | nil => intro k; simp [numCorrect]
  | cons a rest ih =>
    intro k
    obtain ⟨a1, a2⟩ := a
    simp only [numCorrect, List.length_cons]
    have := ih (k + 1)
    cases pool[p * QUESTIONS_PER_PLAYER + k]? with
    | none => simpa using Nat.le_succ_of_le this
    | some q =>
      by_cases hc : a1 = q.correctAnswer
      · simp only [if_pos hc]; omega
      · simp only [if_neg hc]; omega

/-- Invariant for the first answers of a turn, none of which reaches the
10th question: the pool, player index and turn start are untouched, the
question index advances one per answer, the penalty counter gains 10 per
wrong answer, the active player's score gains 1 per correct answer, and no
player's time changes. -/
theorem runTurn_prefix :
    ∀ (steps : List (String × ℚ)) (s : GameState),
      s.isAnswered = false →
      s.currentQuestionIndex + steps.length ≤ QUESTIONS_PER_PLAYER - 1 →
      (s.currentPlayerIndex + 1) * QUESTIONS_PER_PLAYER ≤ s.questionPool.length →
      (runTurn s steps).questionPool = s.questionPool ∧
      (runTurn s steps).currentPlayerIndex = s.currentPlayerIndex ∧
      (runTurn s steps).currentQuestionIndex = s.currentQuestionIndex + steps.length ∧
      (runTurn s steps).isAnswered = false ∧
      (runTurn s steps).turnStartTime = s.turnStartTime ∧
      (runTurn s steps).players.length = s.players.length ∧
      (runTurn s steps).currentTurnPenalties =
        s.currentTurnPenalties + 10 * (steps.length -
          numCorrect s.questionPool s.currentPlayerIndex s.currentQuestionIndex steps) ∧
      (∀ i, i ≠ s.currentPlayerIndex →
        (runTurn s steps).players[i]? = s.players[i]?) ∧
      (runTurn s steps).players[s.currentPlayerIndex]? =
        (s.players[s.currentPlayerIndex]?).map (fun pl =>
          { pl with score := pl.score +
              numCorrect s.questionPool s.currentPlayerIndex s.currentQuestionIndex steps }) := by
  intro steps
  induction steps with
  | nil =>
    intro s hans hk hpool
    refine ⟨rfl, rfl, by simp [runTurn], hans, rfl, rfl, ?_, fun i _ => rfl, ?_⟩
    · simp [runTurn, numCorrect]
    · show s.players[s.currentPlayerIndex]? = _
      cases s.players[s.currentPlayerIndex]? <;> simp [numCorrect]
  | cons a rest ih =>
    intro s hans hk hpool
    obtain ⟨a1, a2⟩ := a
    simp only [QUESTIONS_PER_PLAYER, List.length_cons] at hk hpool
    have hidx : currentPoolIndex s < s.questionPool.length := by
      unfold currentPoolIndex QUESTIONS_PER_PLAYER
      omega
    have hq : s.questionPool[currentPoolIndex s]? =
        some (s.questionPool[currentPoolIndex s]) :=
      List.getElem?_eq_getElem hidx
    set q := s.questionPool[currentPoolIndex s] with hqdef
    have hqq : currentQuestionOf s = some q := by
      unfold currentQuestionOf
      rw [if_pos hidx, hq]
    have hklt : s.currentQuestionIndex < QUESTIONS_PER_PLAYER - 1 := by
      unfold QUESTIONS_PER_PLAYER
      omega
    have hstep := answerStep_mid s (a1, a2) q hans hqq hklt
    dsimp only at hstep
    have hrw : runTurn s ((a1, a2) :: rest) = runTurn (answerStep s (a1, a2)) rest := rfl
    have hnum : numCorrect s.questionPool s.currentPlayerIndex
        s.currentQuestionIndex ((a1, a2) :: rest)
        = (if a1 = q.correctAnswer then 1 else 0) +
          numCorrect s.questionPool s.currentPlayerIndex
            (s.currentQuestionIndex + 1) rest := by
      simp only [numCorrect]
      rw [show s.currentPlayerIndex * QUESTIONS_PER_PLAYER + s.currentQuestionIndex
            = currentPoolIndex s from rfl, hq]
    have hle := numCorrect_le s.questionPool s.currentPlayerIndex rest
      (s.currentQuestionIndex + 1)
    by_cases hc : a1 = q.correctAnswer
    · rw [if_pos hc] at hnum
      simp only [if_pos hc] at hstep
      rw [hrw, hstep]
      obtain ⟨i1, i2, i3, i4, i5, i6, i7, i8, i9⟩ :=
        ih { s with currentQuestionIndex := s.currentQuestionIndex + 1,
                    isAnswered := false, selectedAnswer := none,
                    players := updatePlayers s.players s.currentPlayerIndex
                      (fun p => { p with score := p.score + 1 }),
                    currentTurnPenalties := s.currentTurnPenalties }
          rfl (by simp only [QUESTIONS_PER_PLAYER]; omega)
          (by simp only [QUESTIONS_PER_PLAYER]; omega)
      refine ⟨by simpa using i1, by simpa using i2, ?_, i4, by simpa using i5,
        ?_, ?_, ?_, ?_⟩
      · rw [i3]; simp; omega
      · rw [i6]
        simpa using length_updatePlayers s.players s.currentPlayerIndex _
      · rw [i7]
        simp only [List.length_cons, hnum]
        omega
      · intro i hi
        rw [i8 i (by simpa using hi)]
        simpa using (getElem?_updatePlayers s.players s.currentPlayerIndex _ i).trans
          (if_neg hi)
      · rw [i9]
        dsimp only
        rw [getElem?_updatePlayers, if_pos rfl, hnum]
        cases s.players[s.currentPlayerIndex]? with
        | none => rfl
        | some pl => simp [Nat.add_assoc]
    · rw [if_neg hc] at hnum
      simp only [if_neg hc] at hstep
      rw [hrw, hstep]
      obtain ⟨i1, i2, i3, i4, i5, i6, i7, i8, i9⟩ :=
        ih { s with currentQuestionIndex := s.currentQuestionIndex + 1,
                    isAnswered := false, selectedAnswer := none,
                    players := s.players,
                    currentTurnPenalties := s.currentTurnPenalties + 10 }
          rfl (by simp only [QUESTIONS_PER_PLAYER]; omega)
          (by simp only [QUESTIONS_PER_PLAYER]; omega)
      refine ⟨by simpa using i1, by simpa using i2, ?_, i4, by simpa using i5,
        by simpa using i6, ?_, ?_, ?_⟩
      · rw [i3]; simp; omega
      · rw [i7]
        simp only [List.length_cons, hnum]
        omega
      · intro i hi
        exact i8 i (by simpa using hi)
      · rw [i9]
        dsimp only
        rw [hnum]
        cases s.players[s.currentPlayerIndex]? with
        | none => rfl
        | some pl => simp

theorem numCorrect_append (pool : List Question) (p : Nat) :
    ∀ (l1 l2 : List (String × ℚ)) (k : Nat),
      numCorrect pool p k (l1 ++ l2) =
        numCorrect pool p k l1 + numCorrect pool p (k + l1.length) l2 := by
  intro l1
  induction l1 with
  | nil => intro l2 k; simp [numCorrect]
  | cons a l1 ih =>
    intro l2 k
    obtain ⟨a1, a2⟩ := a
    rw [List.cons_append]
    simp only [numCorrect]
    rw [ih l2 (k + 1)]
    simp only [List.length_cons]
    have heq : k + 1 + l1.length = k + (l1.length + 1) := by omega
    rw [heq]
    omega

/-- A full 10-question turn started by `startPlayerTurn`: only the active
player's record changes; their score grows by the number of correct answers
and their time is set to the wall-clock turn duration (in seconds) plus 10
for each wrong answer. -/
theorem runTurn_full (s : GameState) (t0 : ℚ) (answers : List (String × ℚ))
    (hlen : answers.length = QUESTIONS_PER_PLAYER)
    (hpool : (s.currentPlayerIndex + 1) * QUESTIONS_PER_PLAYER ≤ s.questionPool.length) :
    (runTurn (startPlayerTurn t0 s) answers).players[s.currentPlayerIndex]? =
      (s.players[s.currentPlayerIndex]?).map (fun pl =>
        { pl with
          score := pl.score +
            numCorrect s.questionPool s.currentPlayerIndex 0 answers,
          time := (lastTime answers - t0) / 1000 +
            ((10 * (QUESTIONS_PER_PLAYER -
              numCorrect s.questionPool s.currentPlayerIndex 0 answers) : ℕ) : ℚ) }) ∧
    (∀ i, i ≠ s.currentPlayerIndex →
      (runTurn (startPlayerTurn t0 s) answers).players[i]? = s.players[i]?) := by
  rcases List.eq_nil_or_concat answers with rfl | ⟨init, last, rfl⟩
  · simp [QUESTIONS_PER_PLAYER] at hlen
  obtain ⟨aN, tf⟩ := last
  rw [List.concat_eq_append] at hlen ⊢
  have hinit : init.length = 9 := by
    simp only [List.length_append, List.length_cons, List.length_nil,
      QUESTIONS_PER_PLAYER] at hlen
    omega
  obtain ⟨i1, i2, i3, i4, i5, i6, i7, i8, i9⟩ :=
    runTurn_prefix init (startPlayerTurn t0 s) rfl
      (by simp [startPlayerTurn, hinit, QUESTIONS_PER_PLAYER])
      (by simpa [startPlayerTurn] using hpool)
  have hp9 : (runTurn (startPlayerTurn t0 s) init).currentPlayerIndex
      = s.currentPlayerIndex := by
    rw [i2]
    rfl
  have hpool9 : (runTurn (startPlayerTurn t0 s) init).questionPool
      = s.questionPool := by
    rw [i1]
    rfl
  have hq9idx : (runTurn (startPlayerTurn t0 s) init).currentQuestionIndex = 9 := by
    rw [i3]
    simp [startPlayerTurn, hinit]
  have ht0 : (runTurn (startPlayerTurn t0 s) init).turnStartTime = t0 := by
    rw [i5]
    rfl
  have hC9le := numCorrect_le s.questionPool s.currentPlayerIndex init 0
  have hC9le9 : numCorrect s.questionPool s.currentPlayerIndex 0 init ≤ 9 := by
    omega
  have hpen9 : (runTurn (startPlayerTurn t0 s) init).currentTurnPenalties
      = 10 * (9 - numCorrect s.questionPool s.currentPlayerIndex 0 init) := by
    rw [i7]
    simp [startPlayerTurn, hinit]
  have hplayers9 : (runTurn (startPlayerTurn t0 s) init).players[s.currentPlayerIndex]?
      = (s.players[s.currentPlayerIndex]?).map (fun pl =>
          { pl with score := pl.score +
              numCorrect s.questionPool s.currentPlayerIndex 0 init }) := by
    have := i9
    simp only [startPlayerTurn] at this
    exact this
  have hidx9 : currentPoolIndex (runTurn (startPlayerTurn t0 s) init)
      < (runTurn (startPlayerTurn t0 s) init).questionPool.length := by
    unfold currentPoolIndex
    rw [hp9, hq9idx, hpool9]
    simp only [QUESTIONS_PER_PLAYER] at hpool ⊢
    omega
  have hq9 : (runTurn (startPlayerTurn t0 s) init).questionPool[
      currentPoolIndex (runTurn (startPlayerTurn t0 s) init)]? =
      some ((runTurn (startPlayerTurn t0 s) init).questionPool[
        currentPoolIndex (runTurn (startPlayerTurn t0 s) init)]) :=
    List.getElem?_eq_getElem hidx9
  set q9 := (runTurn (startPlayerTurn t0 s) init).questionPool[
    currentPoolIndex (runTurn (startPlayerTurn t0 s) init)] with hq9def
  have hqq9 : currentQuestionOf (runTurn (startPlayerTurn t0 s) init) = some q9 := by
    unfold currentQuestionOf
    rw [if_pos hidx9, hq9]
  have hq9' : s.questionPool[s.currentPlayerIndex * QUESTIONS_PER_PLAYER + 9]?
      = some q9 := by
    have := hq9
    rw [hpool9] at this
    rw [show currentPoolIndex (runTurn (startPlayerTurn t0 s) init)
        = s.currentPlayerIndex * QUESTIONS_PER_PLAYER + 9 from by
      unfold currentPoolIndex; rw [hp9, hq9idx]] at this
    exact this
  have hC : numCorrect s.questionPool s.currentPlayerIndex 0 (init ++ [(aN, tf)])
      = numCorrect s.questionPool s.currentPlayerIndex 0 init +
        (if aN = q9.correctAnswer then 1 else 0) := by
    rw [numCorrect_append]
    simp only [numCorrect, hinit, Nat.zero_add, hq9', Nat.add_zero]
  have hlast : lastTime (init ++ [(aN, tf)]) = tf := by
    unfold lastTime
    rw [List.getLast?_concat]
  have hsplit : runTurn (startPlayerTurn t0 s) (init ++ [(aN, tf)])
      = answerStep (runTurn (startPlayerTurn t0 s) init) (aN, tf) := by
    unfold runTurn
    rw [List.foldl_append]
    rfl
  have h10 := handleAnswer_unanswered (runTurn (startPlayerTurn t0 s) init) aN q9 i4 hqq9
  by_cases hc : aN = q9.correctAnswer
  · rw [if_pos hc] at h10
    have hstep2 : runTurn (startPlayerTurn t0 s) (init ++ [(aN, tf)])
        = finishPlayerTurn tf
            { runTurn (startPlayerTurn t0 s) init with
              selectedAnswer := some aN, isAnswered := true,
              players := updatePlayers (runTurn (startPlayerTurn t0 s) init).players
                (runTurn (startPlayerTurn t0 s) init).currentPlayerIndex
                (fun p => { p with score := p.score + 1 }) } := by
      rw [hsplit]
      unfold answerStep
      dsimp only
      rw [h10]
      unfold nextQuestion
      rw [if_neg (by simp [hq9idx, QUESTIONS_PER_PLAYER])]
    rw [hstep2, finishPlayerTurn_players]
    dsimp only
    rw [hp9, ht0, hpen9, hC, if_pos hc]
    constructor
    · rw [getElem?_updatePlayers, if_pos rfl, getElem?_updatePlayers, if_pos rfl,
        hplayers9, hlast]
      cases s.players[s.currentPlayerIndex]? with
      | none => rfl
      | some pl =>
        simp only [Option.map_some']
        congr 1
        have harith : (10 : ℕ) * (9 - numCorrect s.questionPool s.currentPlayerIndex 0 init)
            = 10 * (QUESTIONS_PER_PLAYER -
                (numCorrect s.questionPool s.currentPlayerIndex 0 init + 1)) := by
          simp only [QUESTIONS_PER_PLAYER]
          omega
        rw [harith]
        simp [Nat.add_assoc]
    · intro i hi
      rw [getElem?_updatePlayers, if_neg hi, getElem?_updatePlayers, if_neg hi]
      exact i8 i (by simpa [startPlayerTurn] using hi)
  · rw [if_neg hc] at h10
    have hstep2 : runTurn (startPlayerTurn t0 s) (init ++ [(aN, tf)])
        = finishPlayerTurn tf
            { runTurn (startPlayerTurn t0 s) init with
              selectedAnswer := some aN, isAnswered := true,
              currentTurnPenalties :=
                (runTurn (startPlayerTurn t0 s) init).currentTurnPenalties + 10 } := by
      rw [hsplit]
      unfold answerStep
      dsimp only
      rw [h10]
      unfold nextQuestion
      rw [if_neg (by simp [hq9idx, QUESTIONS_PER_PLAYER])]
    rw [hstep2, finishPlayerTurn_players]
    dsimp only
    rw [hp9, ht0, hpen9, hC, if_neg hc]
    constructor
    · rw [getElem?_updatePlayers, if_pos rfl, hplayers9, hlast]
      cases s.players[s.currentPlayerIndex]? with
      | none => rfl
      | some pl =>
        simp only [Option.map_some']
        congr 1
        have harith : (10 : ℕ) * (9 - numCorrect s.questionPool s.currentPlayerIndex 0 init) + 10
            = 10 * (QUESTIONS_PER_PLAYER -
                (numCorrect s.questionPool s.currentPlayerIndex 0 init + 0)) := by
          simp only [QUESTIONS_PER_PLAYER]
          omega
        rw [← harith]
        push_cast
        simp [Nat.add_assoc]
    · intro i hi
      rw [getElem?_updatePlayers, if_neg hi]
      exact i8 i (by simpa [startPlayerTurn] using hi)

/-! Claim theorems. -/

/-- Claim C1: for every vocabulary whose entries all have at least one
synonym and every `needed > 0`, `generatePoolFromData` returns exactly
`needed` questions, and every returned question has `correctAnswer ∈
options` and duplicate-free `options`. -/
theorem c1_generator_contract (needed : Nat) (poolSource : List WordData)
    (rand0 : Nat → Nat) (randC : Nat → Nat) (randD randO : Nat → Nat → Nat)
    (hps : poolSource ≠ []) (hneed : 0 < needed)
    (hsyn : ∀ d ∈ poolSource, d.sinonimoak ≠ []) :
    (generatePoolFromData needed poolSource rand0 randC randD randO).length = needed ∧
    ∀ q ∈ generatePoolFromData needed poolSource rand0 randC randD randO,
      q.correctAnswer ∈ q.options ∧ q.options.Nodup := by
  refine ⟨generatePool_length needed poolSource rand0 randC randD randO hps, ?_⟩
  intro q hq
  obtain ⟨hwd, rc, rd, ro, hquest⟩ :=
    generatePool_mem needed poolSource rand0 randC randD randO q hq
  obtain ⟨h1, h2, h3, h4, h5, h6⟩ :=
    mkQuestion_spec (allWordsIn poolSource) q.wordData rc rd ro (hsyn _ hwd)
  rw [hquest]
  exact ⟨h3, h4⟩

/-- Claim C1 witness: the contract at the one-entry vocabulary. -/
theorem c1_generator_contract_witness :
    ([⟨0, "azkar", ["bizkor"]⟩] : List WordData) ≠ [] ∧ 0 < 1 ∧
    (∀ d ∈ ([⟨0, "azkar", ["bizkor"]⟩] : List WordData), d.sinonimoak ≠ []) ∧
    ((generatePoolFromData 1 [⟨0, "azkar", ["bizkor"]⟩] (fun _ => 0) (fun _ => 0)
        (fun _ _ => 0) (fun _ _ => 0)).length = 1 ∧
      ∀ q ∈ generatePoolFromData 1 [⟨0, "azkar", ["bizkor"]⟩] (fun _ => 0) (fun _ => 0)
        (fun _ _ => 0) (fun _ _ => 0),
        q.correctAnswer ∈ q.options ∧ q.options.Nodup) :=
  ⟨by decide, by decide, by decide,
    c1_generator_contract 1 [⟨0, "azkar", ["bizkor"]⟩] (fun _ => 0) (fun _ => 0)
      (fun _ _ => 0) (fun _ _ => 0) (by decide) (by decide) (by decide)⟩

/-- Claim C2 counterexample: on the one-entry vocabulary (the spec §8
end-to-end scenario) the generated question has 1 option, not 4, for every
random outcome the oracles can encode - here the all-zero draw. -/
theorem c2_four_options_counterexample :
    ∃ q ∈ generatePoolFromData 1 [⟨0, "azkar", ["bizkor"]⟩]
      (fun _ => 0) (fun _ => 0) (fun _ _ => 0) (fun _ _ => 0),
      q.options.length ≠ 4 := by decide

/-- Claim C2 amended: every generated question's options are an ordered
sequence of distinct strings containing `correctAnswer`, with at most 4
entries, and exactly 4 whenever at least 3 distinct distractor candidates
survive the exclusion filter. -/
theorem c2_amended_options (needed : Nat) (poolSource : List WordData)
    (rand0 : Nat → Nat) (randC : Nat → Nat) (randD randO : Nat → Nat → Nat)
    (hsyn : ∀ d ∈ poolSource, d.sinonimoak ≠ []) :
    ∀ q ∈ generatePoolFromData needed poolSource rand0 randC randD randO,
      q.correctAnswer ∈ q.options ∧ q.options.Nodup ∧ q.options.length ≤ 4 ∧
      (3 ≤ (jsDedup (finalSourceFor (allWordsIn poolSource) q.wordData) []).length →
        q.options.length = 4) := by
  intro q hq
  obtain ⟨hwd, rc, rd, ro, hquest⟩ :=
    generatePool_mem needed poolSource rand0 randC randD randO q hq
  obtain ⟨h1, h2, h3, h4, h5, h6⟩ :=
    mkQuestion_spec (allWordsIn poolSource) q.wordData rc rd ro (hsyn _ hwd)
  refine ⟨by rw [hquest]; exact h3, by rw [hquest]; exact h4, ?_, ?_⟩
  · rw [hquest, h5]
    omega
  · intro hsrc
    rw [hquest, h5]
    omega

/-- Claim C2 witness: the amended statement at the one-entry vocabulary. -/
theorem c2_amended_options_witness :
    (∀ d ∈ ([⟨0, "azkar", ["bizkor"]⟩] : List WordData), d.sinonimoak ≠ []) ∧
    (∀ q ∈ generatePoolFromData 1 [⟨0, "azkar", ["bizkor"]⟩] (fun _ => 0) (fun _ => 0)
        (fun _ _ => 0) (fun _ _ => 0),
      q.correctAnswer ∈ q.options ∧ q.options.Nodup ∧ q.options.length ≤ 4 ∧
      (3 ≤ (jsDedup (finalSourceFor
          (allWordsIn [⟨0, "azkar", ["bizkor"]⟩]) q.wordData) []).length →
        q.options.length = 4)) :=
  ⟨by decide,
    c2_amended_options 1 [⟨0, "azkar", ["bizkor"]⟩] (fun _ => 0) (fun _ => 0)
      (fun _ _ => 0) (fun _ _ => 0) (by decide)⟩

/-- The vocabulary refuting claim C3: ten same-category (other) occurrences
of the single distinct string "etxe", plus a verb entry, so the
same-category list has 10 members with multiplicity but only 1 distinct. -/
def c3Vocab : List WordData :=
  [⟨0, "mahai", ["aulki"]⟩, ⟨1, "etxe", ["etxe"]⟩, ⟨2, "etxe", ["etxe"]⟩,
   ⟨3, "etxe", ["etxe"]⟩, ⟨4, "etxe", ["etxe"]⟩, ⟨5, "etxe", ["etxe"]⟩,
   ⟨6, "hartu", ["hartu"]⟩]

/-- The target entry for the claim C3 counterexample. -/
def c3Target : WordData := ⟨0, "mahai", ["aulki"]⟩

/-- Claim C3 counterexample: the same-category candidate list has fewer than
10 distinct members, yet the selector does not fall back to the full
excluded-filtered universe - it keeps the same-category list, which differs
from that universe. The code tests the length with multiplicity, not the
number of distinct members. -/
theorem c3_fallback_counterexample :
    (jsDedup (sameTypeFor (allWordsIn c3Vocab) c3Target) []).length < 10 ∧
    finalSourceFor (allWordsIn c3Vocab) c3Target
      ≠ distractorsPoolFor (allWordsIn c3Vocab) c3Target ∧
    finalSourceFor (allWordsIn c3Vocab) c3Target
      = sameTypeFor (allWordsIn c3Vocab) c3Target := by decide

/-- Claim C3 amended: the same-category candidate source is used exactly
when it has at least 10 members counting duplicates; with fewer than 10
members (with multiplicity) the selector falls back to the full
excluded-filtered universe, and the selected distractors always come from
the chosen source. -/
theorem c3_amended_fallback (allWords : List String) (d : WordData) (rd : Nat → Nat) :
    ((sameTypeFor allWords d).length < 10 →
      finalSourceFor allWords d = distractorsPoolFor allWords d) ∧
    (10 ≤ (sameTypeFor allWords d).length →
      finalSourceFor allWords d = sameTypeFor allWords d) ∧
    (∀ x ∈ selectDistractors allWords d rd, x ∈ finalSourceFor allWords d) := by
  refine ⟨?_, ?_, ?_⟩
  · intro h
    unfold finalSourceFor
    rw [if_neg (by omega)]
  · intro h
    unfold finalSourceFor
    rw [if_pos h]
  · intro x hx
    have hx2 : x ∈ shuffleArray rd (jsDedup (finalSourceFor allWords d) []) :=
      List.take_subset 3 _ hx
    have hx3 : x ∈ jsDedup (finalSourceFor allWords d) [] :=
      ((shuffleArray_perm rd _).mem_iff).mp hx2
    exact ((mem_jsDedup x _ []).mp hx3).1

/-- Claim C4: the selected distractors are pairwise distinct, none equals
the target's headword, none is one of the target's synonyms, and at most 3
are returned. -/
theorem c4_distractor_properties (vocab : List WordData) (d : WordData) (rd : Nat → Nat) :
    (selectDistractors (allWordsIn vocab) d rd).Nodup ∧
    (selectDistractors (allWordsIn vocab) d rd).length ≤ 3 ∧
    ∀ x ∈ selectDistractors (allWordsIn vocab) d rd,
      x ≠ d.hitza ∧ x ∉ d.sinonimoak := by
  refine ⟨selectDistractors_nodup _ _ _, ?_, ?_⟩
  · rw [selectDistractors_length]
    omega
  · intro x hx
    have hm := (mem_distractorsPoolFor (allWordsIn vocab) d x).mp
      (mem_selectDistractors (allWordsIn vocab) d rd x hx)
    exact ⟨hm.2.1, hm.2.2⟩

/-- Claim C5: the word classifier is a pure total function agreeing with the
spec's first-match priority rule table on every string, and on the quoted
examples: case-insensitive and trimmed verb detection, plural, abstract,
and "herritasuna", whose trailing letters keep the `tasun` suffix rule from
firing, falls through to other. -/
theorem c5_classifier_contract (w : String) :
    getWordType w = classifySpec w ∧
    getWordType " DANTZATU " = "verb" ∧
    getWordType "mendiak" = "plural" ∧
    getWordType "itxura" = "abstract" ∧
    getWordType "herritasuna" = "other" ∧
    getWordType "mahai" = "other" := by
  refine ⟨?_, by decide, by decide, by decide, by decide, by decide⟩
  simp only [getWordType, classifySpec, specRules, List.find?]
  cases strEndsWith (jsTrim (jsToLower w)) "tu" <;>
    cases strEndsWith (jsTrim (jsToLower w)) "du" <;>
    cases strEndsWith (jsTrim (jsToLower w)) "ten" <;>
    cases strEndsWith (jsTrim (jsToLower w)) "tzen" <;>
    cases strEndsWith (jsTrim (jsToLower w)) "ak" <;>
    cases strEndsWith (jsTrim (jsToLower w)) "ek" <;>
    cases strEndsWith (jsTrim (jsToLower w)) "era" <;>
    cases strEndsWith (jsTrim (jsToLower w)) "ura" <;>
    cases strEndsWith (jsTrim (jsToLower w)) "tasun" <;>
    rfl

/-- Claim C6: when every entry of the vocabulary has at least one synonym,
every generated question draws its correct answer from its own entry's
synonym list, and that entry belongs to the vocabulary. -/
theorem c6_correct_answer_source (needed : Nat) (poolSource : List WordData)
    (rand0 : Nat → Nat) (randC : Nat → Nat) (randD randO : Nat → Nat → Nat)
    (hsyn : ∀ d ∈ poolSource, d.sinonimoak ≠ []) :
    ∀ q ∈ generatePoolFromData needed poolSource rand0 randC randD randO,
      q.wordData ∈ poolSource ∧ q.correctAnswer ∈ q.wordData.sinonimoak := by
  intro q hq
  obtain ⟨hwd, rc, rd, ro, hquest⟩ :=
    generatePool_mem needed poolSource rand0 randC randD randO q hq
  obtain ⟨h1, h2, h3, h4, h5, h6⟩ :=
    mkQuestion_spec (allWordsIn poolSource) q.wordData rc rd ro (hsyn _ hwd)
  refine ⟨hwd, ?_⟩
  have hcorr : q.correctAnswer
      = (mkQuestion (allWordsIn poolSource) q.wordData rc rd ro).correctAnswer := by
    rw [← hquest]
  rw [hcorr]
  exact h2

/-- Claim C6 witness: the statement at the one-entry vocabulary. -/
theorem c6_correct_answer_source_witness :
    (∀ d ∈ ([⟨0, "azkar", ["bizkor"]⟩] : List WordData), d.sinonimoak ≠ []) ∧
    (∀ q ∈ generatePoolFromData 1 [⟨0, "azkar", ["bizkor"]⟩] (fun _ => 0) (fun _ => 0)
        (fun _ _ => 0) (fun _ _ => 0),
      q.wordData ∈ ([⟨0, "azkar", ["bizkor"]⟩] : List WordData) ∧
      q.correctAnswer ∈ q.wordData.sinonimoak) :=
  ⟨by decide,
    c6_correct_answer_source 1 [⟨0, "azkar", ["bizkor"]⟩] (fun _ => 0) (fun _ => 0)
      (fun _ _ => 0) (fun _ _ => 0) (by decide)⟩

/-- Claim C7: in the playing state for player `p` and turn position `i`
(with `i < 10`, a valid player and a full pool) the question read - both by
the answer handler and the render, which share `currentQuestionOf` - is the
pool element at flat index `p * 10 + i`; and every pool built by
`startNewGamePool` has length `playerCount * 10`. -/
theorem c7_pool_indexing (s : GameState) (p i : Nat)
    (hp : s.currentPlayerIndex = p) (hi : s.currentQuestionIndex = i)
    (hilt : i < QUESTIONS_PER_PLAYER)
    (hlen : (p + 1) * QUESTIONS_PER_PLAYER ≤ s.questionPool.length) :
    (∃ q, s.questionPool[p * QUESTIONS_PER_PLAYER + i]? = some q ∧
      currentQuestionOf s = some q) ∧
    ∀ (isSolo : Bool) (players : List Player) (poolSource : List WordData)
      (rand0 : Nat → Nat) (randC : Nat → Nat) (randD randO : Nat → Nat → Nat)
      (pool : List Question),
      startNewGamePool isSolo players poolSource rand0 randC randD randO = some pool →
      pool.length = (if isSolo then 1 else players.length) * QUESTIONS_PER_PLAYER := by
  constructor
  · have hidx : p * QUESTIONS_PER_PLAYER + i < s.questionPool.length := by
      simp only [QUESTIONS_PER_PLAYER] at hilt hlen ⊢
      omega
    refine ⟨s.questionPool[p * QUESTIONS_PER_PLAYER + i],
      List.getElem?_eq_getElem hidx, ?_⟩
    unfold currentQuestionOf currentPoolIndex
    rw [hp, hi, if_pos (by rw [hp, hi] at *; exact hidx),
      List.getElem?_eq_getElem hidx]
  · intro isSolo players poolSource rand0 randC randD randO pool hpool
    simp only [startNewGamePool] at hpool
    by_cases hempty : poolSource.isEmpty
    · rw [if_pos hempty] at hpool
      exact absurd hpool (by simp)
    · rw [if_neg hempty] at hpool
      have hne : poolSource ≠ [] := by
        simpa [List.isEmpty_iff] using hempty
      have hgen := generatePool_length
        ((if isSolo then 1 else players.length) * QUESTIONS_PER_PLAYER)
        poolSource rand0 randC randD randO hne
      rw [← Option.some_inj.mp hpool]
      exact hgen

/-- The state for the claim C7 witness: a 2-player game, player 1 at turn
position 3, with a full 20-question pool. -/
def c7State : GameState :=
  { status := GameStatus.PLAYING,
    players := [⟨0, "P1", 0, 0⟩, ⟨1, "P2", 0, 0⟩],
    questionPool :=
      List.replicate 20 ⟨⟨0, "azkar", ["bizkor"]⟩, "bizkor", ["bizkor"]⟩,
    currentPlayerIndex := 1, currentQuestionIndex := 3,
    selectedAnswer := none, isAnswered := false,
    currentTurnPenalties := 0, turnStartTime := 0 }

/-- Claim C7 witness: the spec's own example, `Playing(1,3)` reads
`pool[13]`. -/
theorem c7_pool_indexing_witness :
    c7State.currentPlayerIndex = 1 ∧ c7State.currentQuestionIndex = 3 ∧
    3 < QUESTIONS_PER_PLAYER ∧
    (1 + 1) * QUESTIONS_PER_PLAYER ≤ c7State.questionPool.length ∧
    ((∃ q, c7State.questionPool[1 * QUESTIONS_PER_PLAYER + 3]? = some q ∧
        currentQuestionOf c7State = some q) ∧
      ∀ (isSolo : Bool) (players : List Player) (poolSource : List WordData)
        (rand0 : Nat → Nat) (randC : Nat → Nat) (randD randO : Nat → Nat → Nat)
        (pool : List Question),
        startNewGamePool isSolo players poolSource rand0 randC randD randO = some pool →
        pool.length = (if isSolo then 1 else players.length) * QUESTIONS_PER_PLAYER) :=
  ⟨rfl, rfl, by decide, by decide,
    c7_pool_indexing c7State 1 3 rfl rfl (by decide) (by decide)⟩

/-- Claim C8: over a complete 10-answer turn started by `startPlayerTurn`,
the active player's score grows by exactly the number of correct answers (a
wrong answer never changes it), and the player's time is written only at the
end of the turn, as the wall-clock duration in seconds plus 10 for each
wrong answer; after any proper prefix of the turn the player's time is still
untouched. -/
theorem c8_turn_scoring (s : GameState) (t0 : ℚ) (answers : List (String × ℚ))
    (pl : Player)
    (hlen : answers.length = QUESTIONS_PER_PLAYER)
    (hpool : (s.currentPlayerIndex + 1) * QUESTIONS_PER_PLAYER ≤ s.questionPool.length)
    (hpl : s.players[s.currentPlayerIndex]? = some pl) :
    (runTurn (startPlayerTurn t0 s) answers).players[s.currentPlayerIndex]? =
      some { pl with
        score := pl.score + numCorrect s.questionPool s.currentPlayerIndex 0 answers,
        time := (lastTime answers - t0) / 1000 +
          ((10 * (QUESTIONS_PER_PLAYER -
            numCorrect s.questionPool s.currentPlayerIndex 0 answers) : ℕ) : ℚ) } ∧
    ∀ j, j ≤ QUESTIONS_PER_PLAYER - 1 →
      (runTurn (startPlayerTurn t0 s) (answers.take j)).players[s.currentPlayerIndex]? =
        some { pl with score := (pl.score +
          numCorrect s.questionPool s.currentPlayerIndex 0 (answers.take j)) } := by
  constructor
  · have h := (runTurn_full s t0 answers hlen hpool).1
    rw [hpl] at h
    simpa using h
  · intro j hj
    obtain ⟨_, _, _, _, _, _, _, _, i9⟩ :=
      runTurn_prefix (answers.take j) (startPlayerTurn t0 s) rfl
        (by
          have hle := List.length_take_le j answers
          simp only [startPlayerTurn, QUESTIONS_PER_PLAYER] at hj ⊢
          omega)
        (by simpa [startPlayerTurn] using hpool)
    simp only [startPlayerTurn] at i9
    rw [hpl] at i9
    simpa using i9

/-- The start state for the claim C8 witness: one player, a full
10-question pool. -/
def c8State : GameState :=
  { status := GameStatus.INTERMISSION,
    players := [⟨0, "P1", 0, 0⟩],
    questionPool :=
      List.replicate 10 ⟨⟨0, "azkar", ["bizkor"]⟩, "bizkor", ["bizkor"]⟩,
    currentPlayerIndex := 0, currentQuestionIndex := 0,
    selectedAnswer := none, isAnswered := false,
    currentTurnPenalties := 0, turnStartTime := 0 }

/-- The answers for the claim C8 witness: ten correct answers, the last
advance at millisecond 1000. -/
def c8Answers : List (String × ℚ) := List.replicate 10 ("bizkor", 1000)

/-- Claim C8 witness: the turn accounting at a concrete all-correct turn. -/
theorem c8_turn_scoring_witness :
    c8Answers.length = QUESTIONS_PER_PLAYER ∧
    (c8State.currentPlayerIndex + 1) * QUESTIONS_PER_PLAYER
      ≤ c8State.questionPool.length ∧
    c8State.players[c8State.currentPlayerIndex]?
      = some (⟨0, "P1", 0, 0⟩ : Player) ∧
    ((runTurn (startPlayerTurn 0 c8State) c8Answers).players[c8State.currentPlayerIndex]? =
      some { (⟨0, "P1", 0, 0⟩ : Player) with
        score := (⟨0, "P1", 0, 0⟩ : Player).score +
          numCorrect c8State.questionPool c8State.currentPlayerIndex 0 c8Answers,
        time := (lastTime c8Answers - 0) / 1000 +
          ((10 * (QUESTIONS_PER_PLAYER -
            numCorrect c8State.questionPool c8State.currentPlayerIndex 0 c8Answers) : ℕ) : ℚ) } ∧
    ∀ j, j ≤ QUESTIONS_PER_PLAYER - 1 →
      (runTurn (startPlayerTurn 0 c8State) (c8Answers.take j)).players[c8State.currentPlayerIndex]? =
        some { (⟨0, "P1", 0, 0⟩ : Player) with score := ((⟨0, "P1", 0, 0⟩ : Player).score +
          numCorrect c8State.questionPool c8State.currentPlayerIndex 0 (c8Answers.take j)) }) :=
  ⟨by decide, by decide, rfl,
    c8_turn_scoring c8State 0 c8Answers ⟨0, "P1", 0, 0⟩ (by decide) (by decide) rfl⟩

/-- Claim C9: while the current question is already answered, submitting
another answer is a no-op - the whole game state is unchanged. -/
theorem c9_answer_resubmission_noop (s : GameState) (answer : String)
    (h : s.isAnswered = true) :
    handleAnswer s answer = s :=
  handleAnswer_answered s answer h

/-- The state for the claim C9 witness: the current question is answered. -/
def c9State : GameState :=
  { status := GameStatus.PLAYING,
    players := [⟨0, "P1", 3, 0⟩],
    questionPool :=
      List.replicate 10 ⟨⟨0, "azkar", ["bizkor"]⟩, "bizkor", ["bizkor"]⟩,
    currentPlayerIndex := 0, currentQuestionIndex := 4,
    selectedAnswer := some "bizkor", isAnswered := true,
    currentTurnPenalties := 10, turnStartTime := 0 }

/-- Claim C9 witness: resubmitting at a concrete answered state changes
nothing. -/
theorem c9_answer_resubmission_noop_witness :
    c9State.isAnswered = true ∧ handleAnswer c9State "azkar" = c9State :=
  ⟨rfl, c9_answer_resubmission_noop c9State "azkar" rfl⟩

/-- Claim C10: the replication loop of the generator exits within `needed`
iterations for every non-empty `poolSource`, each iteration strictly growing
the working list by `poolSource.length ≥ 1`; with an empty `poolSource` and
`needed > 0` no number of iterations reaches the exit condition (the source
loop would not terminate), and the only guard is the caller's
empty-vocabulary check, which aborts before the generator is invoked. -/
theorem c10_replication_loop (poolSource : List WordData) (needed : Nat) :
    (poolSource ≠ [] →
      ¬ (growPool poolSource needed poolSource needed).length < needed) ∧
    (poolSource ≠ [] → ∀ acc : List WordData, acc.length < needed →
      growPool poolSource needed acc 1 = acc ++ poolSource ∧
      acc.length + 1 ≤ (acc ++ poolSource).length ∧
      (acc ++ poolSource).length = acc.length + poolSource.length) ∧
    (0 < needed → ∀ fuel, (growPool [] needed [] fuel).length < needed) ∧
    (∀ (isSolo : Bool) (players : List Player) (rand0 : Nat → Nat)
       (randC : Nat → Nat) (randD randO : Nat → Nat → Nat),
      startNewGamePool isSolo players [] rand0 randC randD randO = none) := by
  refine ⟨?_, ?_, ?_, ?_⟩
  · intro hps
    have hge := growPool_length_ge poolSource needed hps needed poolSource (by omega)
    omega
  · intro hps acc hlt
    have hp1 : 1 ≤ poolSource.length := List.length_pos.mpr hps
    refine ⟨?_, ?_, ?_⟩
    · simp [growPool, hlt]
    · rw [List.length_append]
      omega
    · exact List.length_append acc poolSource
  · intro hpos fuel
    rw [growPool_nil needed fuel]
    simpa using hpos
  · intro isSolo players rand0 randC randD randO
    simp [startNewGamePool]

end Sinonimoen
